import Mathlib

/-!
# Object recognition search environment (`sbpl_perception`)

Shallow embedding of `sbpl_perception/search_env.h` (class `EnvObjectRecognition`)
and of the demo driver `src/experiments/experiments.cpp` (`main`), with the
properties of the written design checked against it.

Conventions of the embedding.

* A C++ `int` argument is an `Int`; none of the embedded bodies does arithmetic
  on one, except `static_cast<int>` of a `size_t`, which is written out modulo `2^32`.
* A member call is a function from the memory it can reach (the environment
  object and the vectors behind its pointer arguments) to how it ended, the
  memory afterwards and the lines it wrote to standard output.
* A member function that is only declared in the header is an argument of the
  inline functions that call it.
-/

namespace Perception

/-! ## Calls, exceptions and standard output -/

/-- How a C++ call ends: it returns a value, or it throws a `std::runtime_error`
carrying a message. -/
inductive Outcome (α : Type) where
  | returned (value : α)
  | threw (what : String)
  deriving DecidableEq, Repr

/-- The memory a member call of the environment can reach: the environment object
itself (`this`) and the vectors its pointer arguments point to. `ids` stands for
`succ_ids`, `pred_ids` or `PredIDV`, `costs` for `costs` or `CostV`. -/
structure Heap (E : Type) where
  this : E
  ids : List Int
  costs : List Int
  true_costs : List Bool
  deriving DecidableEq, Repr

/-- What a call leaves behind: its outcome, the memory after it, and the lines it
wrote to standard output, oldest first. -/
structure Result (E α : Type) where
  outcome : Outcome α
  heap : Heap E
  printed : List String
  deriving DecidableEq, Repr

/-- A member call: from the memory before it to what it leaves behind. -/
abbrev Call (E α : Type) := Heap E → Result E α

/-- The statement `return v;` (for `void`, falling off the end of the body). -/
def Call.ret {E α : Type} (v : α) : Call E α :=
  fun h => ⟨Outcome.returned v, h, []⟩

/-- The statement `throw std::runtime_error(what);`. -/
def throw_runtime_error {E α : Type} (what : String) : Call E α :=
  fun h => ⟨Outcome.threw what, h, []⟩

/-- The statement `printf(...)` with the formatted text `line`. -/
def printf {E : Type} (line : String) : Call E Unit :=
  fun h => ⟨Outcome.returned (), h, [line]⟩

/-- Sequencing of statements: the second runs on the memory the first left, and
only when the first returned; a throw propagates. -/
def Call.seq {E α β : Type} (c : Call E α) (k : α → Call E β) : Call E β :=
  fun h =>
    match c h with
    | ⟨Outcome.returned v, h1, out⟩ =>
        let r := k v h1
        ⟨r.outcome, r.heap, out ++ r.printed⟩
    | ⟨Outcome.threw what, h1, out⟩ => ⟨Outcome.threw what, h1, out⟩

/-- The text `printf("Expanding from %d\n", q_id)` writes. -/
def expanding_from (q_id : Int) : String :=
  "Expanding from " ++ toString q_id ++ "\n"

/-! ## `EnvObjectRecognition`: the inline member functions of `search_env.h` -/

section InlineMembers

variable {E : Type}

/-- `void GetLazyPreds(int source_state_id, std::vector<int> *pred_ids,
std::vector<int> *costs, std::vector<bool> *true_costs)`. -/
def GetLazyPreds (_source_state_id : Int) : Call E Unit :=
  throw_runtime_error "unimplement"

/-- The overload for MHA, `void GetLazyPreds(int q_id, int source_state_id, ...)`. -/
def GetLazyPreds_q (_q_id _source_state_id : Int) : Call E Unit :=
  throw_runtime_error "unimplement"

/-- `int GetFromToHeuristic(int FromStateID, int ToStateID)`. -/
def GetFromToHeuristic (_FromStateID _ToStateID : Int) : Call E Int :=
  throw_runtime_error "unimplement"

/-- `int GetStartHeuristic(int stateID)`. -/
def GetStartHeuristic (_stateID : Int) : Call E Int :=
  throw_runtime_error "unimplement"

/-- `int GetStartHeuristic(int q_id, int stateID)`. -/
def GetStartHeuristic_q (_q_id _stateID : Int) : Call E Int :=
  throw_runtime_error "unimplement"

/-- `void GetPreds(int TargetStateID, std::vector<int> *PredIDV,
std::vector<int> *CostV) {}`: the body is empty. -/
def GetPreds (_TargetStateID : Int) : Call E Unit :=
  Call.ret ()

/-- The overload for MHA, `void GetSuccs(int q_id, int source_state_id,
std::vector<int> *succ_ids, std::vector<int> *costs)`. The single-queue
`GetSuccs(int, ...)` is only declared in the header and is the argument `GetSuccs`. -/
def GetSuccs_q (GetSuccs : Int → Call E Unit) (q_id source_state_id : Int) :
    Call E Unit :=
  Call.seq (printf (expanding_from q_id)) fun _ =>
    GetSuccs source_state_id

/-- The overload for MHA, `void GetLazySuccs(int q_id, int source_state_id, ...)`.
The single-queue `GetLazySuccs(int, ...)` is only declared in the header and is the
argument `GetLazySuccs`. -/
def GetLazySuccs_q (GetLazySuccs : Int → Call E Unit) (q_id source_state_id : Int) :
    Call E Unit :=
  Call.seq (throw_runtime_error "don't use lazy for now...") fun (_ : Unit) =>
    Call.seq (printf (expanding_from q_id)) fun _ =>
      GetLazySuccs source_state_id

end InlineMembers

/-! ## State model and state store -/

/-- Modelled from the spec: the discretized planar pose `(x, y, theta)` of an object
on the fixed resolution grid (section 3); the header that declares it is not part
of the sources at hand. -/
structure DiscPose where
  x : Int
  y : Int
  theta : Int
  deriving DecidableEq, Repr

/-- Modelled from the spec: `ObjectState`, one placement `(model_id, pose)`
(section 3); `graph_state.h` is not part of the sources at hand. -/
structure ObjectState where
  model_id : Int
  pose : DiscPose
  deriving DecidableEq, Repr

/-- Modelled from the spec: `GraphState`, the ordered sequence of placements of a
partial or full scene hypothesis (section 3); `graph_state.h` is not part of the
sources at hand. -/
structure GraphState where
  object_states : List ObjectState
  deriving DecidableEq, Repr

/-- Modelled from the spec: the number of placements of a state, `NumObjects()` of
the missing `graph_state.h`. -/
def GraphState.NumObjects (s : GraphState) : Nat :=
  s.object_states.length

/-- The set of `(model_id, pose)` placements of a state. -/
def GraphState.placements (s : GraphState) : Finset ObjectState :=
  s.object_states.toFinset

/-- Modelled from the spec: equality of graph states, "defined over the set of
placed ObjectStates, independent of insertion order" (section 3); the
`operator==` of the missing `graph_state.h`. Each side must contain every placement
of the other. -/
def GraphState.equal (s t : GraphState) : Bool :=
  s.object_states.all (fun o => decide (o ∈ t.object_states)) &&
    t.object_states.all (fun o => decide (o ∈ s.object_states))

/-- Modelled from the spec: the state store `sbpl_utils::HashManager<GraphState>`
(section 4.1), whose header is not part of the sources at hand. The stored states in
the order their ids were allocated: the state with id `i` is at position `i`. -/
structure HashManager where
  states : List GraphState
  deriving DecidableEq, Repr

/-- Modelled from the spec: the store before any state is interned. -/
def HashManager.empty : HashManager :=
  ⟨[]⟩

/-- Modelled from the spec: "Size query returns the number of distinct states
created so far" (section 4.1), `HashManager::Size()`. -/
def HashManager.Size (hm : HashManager) : Nat :=
  hm.states.length

/-- Modelled from the spec: the id of the stored state equal to `s`, if one was
seen before (section 4.1). -/
def HashManager.find_id (s : GraphState) : List GraphState → Option Nat
  | [] => none
  | t :: rest =>
      if t.equal s then some 0 else (HashManager.find_id s rest).map (fun i => i + 1)

/-- Modelled from the spec: `intern(state) -> StateID` "returns the existing id if
an equal state was seen before, otherwise allocates and stores a new id"
(section 4.1); ids are allocated in increasing order and never reused. The result is
the id and the store afterwards. -/
def HashManager.intern (hm : HashManager) (s : GraphState) : Nat × HashManager :=
  match HashManager.find_id s hm.states with
  | some id => (id, hm)
  | none => (hm.states.length, ⟨hm.states ++ [s]⟩)

/-- Modelled from the spec: `resolve(id) -> GraphState`, the inverse of `intern`,
failing (`none`, `UnknownState`) for an id that was never interned (section 4.1). -/
def HashManager.resolve (hm : HashManager) (id : Nat) : Option GraphState :=
  hm.states[id]?

/-- The store after interning the states of `history` one after the other. -/
def HashManager.intern_all (hm : HashManager) (history : List GraphState) : HashManager :=
  history.foldl (fun acc s => (acc.intern s).2) hm

/-- The sets of placements of the stored states are pairwise different and are the
sets of placements of the states interned so far. -/
def HashManager.Tracks (hm : HashManager) (history : List GraphState) : Prop :=
  (hm.states.map GraphState.placements).Nodup ∧
    (hm.states.map GraphState.placements).toFinset
      = (history.map GraphState.placements).toFinset

/-- The number of distinct states among the states of `history`: the number of
different sets of placements. -/
def number_of_distinct_states (history : List GraphState) : Nat :=
  (history.map GraphState.placements).toFinset.card

/-! ## `EnvParams` and the environment object -/

/-- `struct EnvParams`. `R` stands for `double` and `P` for `Eigen::Isometry3d`;
no embedded function computes with a value of either type. -/
structure EnvParams (R P : Type) where
  table_height : R
  camera_pose : P
  x_min : R
  x_max : R
  y_min : R
  y_max : R
  res : R
  theta_res : R
  img_width : Int
  img_height : Int
  goal_state_id : Int
  start_state_id : Int
  num_objects : Int
  num_models : Int

/-- The data members of `EnvObjectRecognition` that the embedded member functions
read: `env_params_` and `hash_manager_`. `others` holds the remaining members
(models, renderer, caches, clouds), which none of them touches. -/
structure EnvObjectRecognition (R P X : Type) where
  env_params_ : EnvParams R P
  hash_manager_ : HashManager
  others : X

/-- The conversion `static_cast<int>(n)` of a `size_t` to the 32-bit `int`: the value
modulo `2^32`, read as a two's complement number. -/
def static_cast_int (n : Nat) : Int :=
  if n % 2 ^ 32 < 2 ^ 31 then ((n % 2 ^ 32 : Nat) : Int)
  else ((n % 2 ^ 32 : Nat) : Int) - 2 ^ 32

section Members

variable {R P X : Type}

/-- `int GetGoalStateID() { return env_params_.goal_state_id; }`. -/
def GetGoalStateID : Call (EnvObjectRecognition R P X) Int :=
  fun h => Call.ret h.this.env_params_.goal_state_id h

/-- `int GetStartStateID() { return env_params_.start_state_id; }`. -/
def GetStartStateID : Call (EnvObjectRecognition R P X) Int :=
  fun h => Call.ret h.this.env_params_.start_state_id h

/-- `int SizeofCreatedEnv() { return static_cast<int>(hash_manager_.Size()); }`. -/
def SizeofCreatedEnv : Call (EnvObjectRecognition R P X) Int :=
  fun h => Call.ret (static_cast_int h.this.hash_manager_.Size) h

/-- `bool InitializeEnv(const char *sEnvFile) { return false; }`. -/
def InitializeEnv : Call (EnvObjectRecognition R P X) Bool :=
  Call.ret false

/-- `bool InitializeMDPCfg(MDPConfig *MDPCfg) { return true; }`. -/
def InitializeMDPCfg : Call (EnvObjectRecognition R P X) Bool :=
  Call.ret true

/-- Modelled from the spec: `bool IsGoalState(GraphState state)` is declared in the
header and defined in the missing `search_env.cpp`; "a state is goal iff it has
exactly `num_objects` valid placements" (section 4.6). -/
def IsGoalState (env : EnvObjectRecognition R P X) (state : GraphState) : Bool :=
  decide ((state.NumObjects : Int) = env.env_params_.num_objects)

/-- The environment after a state was interned in its store. -/
def EnvObjectRecognition.intern (env : EnvObjectRecognition R P X) (s : GraphState) :
    EnvObjectRecognition R P X :=
  { env with hash_manager_ := (env.hash_manager_.intern s).2 }

end Members

/-! ## Parallel cost dispatcher -/

section Dispatcher

variable {I O : Type}

/-- Modelled from the spec: "local sequential evaluation" of a batch (section 4.5),
the Cost Evaluator applied to the inputs one after the other. The Cost Evaluator is
deterministic (section 4.3) and is the function `CostEvaluator`. -/
def sequential_evaluation (CostEvaluator : I → O) (input : List I) : List O :=
  input.map CostEvaluator

/-- Modelled from the spec: the number of batch entries one process is assigned when
a batch of `n` entries is partitioned across `num_processes` processes: `n` divided
by `num_processes`, rounded up. -/
def slice_length (num_processes n : Nat) : Nat :=
  (n + num_processes - 1) / num_processes

/-- Modelled from the spec: "The coordinator partitions the batch across available
workers (including itself)" (section 4.5). The slice of the process with rank `rank`:
the entries of its block, each with its original index. -/
def assigned_slice (num_processes rank : Nat) (input : List I) : List (Nat × I) :=
  input.enum.filter fun item => item.1 / slice_length num_processes input.length == rank

/-- Modelled from the spec: "each worker runs the Cost Evaluator independently and
only on its assigned slice" (section 4.5); every result keeps the original index of
its input. -/
def worker_results (CostEvaluator : I → O) (slice : List (Nat × I)) : List (Nat × O) :=
  slice.map fun item => (item.1, CostEvaluator item.2)

/-- Modelled from the spec: "results are gathered back and re-associated to their
original index" (section 4.5): the result received for index `i`, if any. -/
def gathered_entry (received : List (Nat × O)) (i : Nat) : Option O :=
  (received.find? fun message => message.1 == i).map Prod.snd

/-- Modelled from the spec: "No partial results are surfaced if any participant
fails to respond; the whole collective call fails" (section 4.5): the output buffer
is surfaced only when every entry is present. -/
def surface_results : List (Option O) → Option (List O)
  | [] => some []
  | none :: _ => none
  | some result :: rest => (surface_results rest).map fun results => result :: results

/-- Modelled from the spec: `ComputeCostsInParallel(input, output)` is declared in
the header and defined in the missing `search_env.cpp`; this is the collective of
section 4.5. `num_processes` processes take part; `arrival` lists their ranks in the
order in which their results reach the coordinator, which is "never assumed" to be
the submission order. The value is the output batch, or `none` when the call fails. -/
def ComputeCostsInParallel (CostEvaluator : I → O) (num_processes : Nat)
    (arrival : List Nat) (input : List I) : Option (List O) :=
  let received := arrival.flatMap fun rank =>
    worker_results CostEvaluator (assigned_slice num_processes rank input)
  surface_results ((List.range input.length).map (gathered_entry received))

end Dispatcher

/-! ## The demo driver: `main` of `experiments.cpp` -/

/-- How `main` ends: it returns a status, an exception leaves it uncaught, or it
reads a vector past its end with the unchecked `operator[]`. -/
inductive Exit where
  | returned (status : Int)
  | uncaught (what : String)
  | out_of_bounds
  deriving DecidableEq, Repr

/-- The steps of `main` that are recorded, in the order of the program text: the
calls into the collaborators that the properties speak of and what is written to the
standard streams. Calls that only set rendering properties of the viewer are not
recorded. `T` stands for `Eigen::Affine3f` and `C` for `PointCloudPtr`. -/
inductive Event (T C : Type) where
  | ros_init
  | Parse
  | loadPCDFile
  | cerr (text : String)
  | ObjectRecognizer
  | ConvertModelNamesInFileToIDs
  | barrier
  | broadcast
  | LocalizeObjects
  | GetObjectPointClouds
  | printf (text : String)
  | PCLVisualizer
  | cout (text : String)
  | cout_matrix (transform : T)
  | addPolygonMesh (model_file : String) (transform : T) (id : String)
  | addCube (id : String)
  | addPointCloud (cloud : C) (id : String)
  | spin
  deriving DecidableEq, Repr

/-- What one run of `main` on one process gets from its collaborators.
`model_bank_at name` is `model_bank.at(name).file`: `ModelBank` is declared outside
these files, and `at` is the checked lookup of a keyed container, which yields the
entry under the key or throws `std::out_of_range` (`none`). -/
structure Run (T C : Type) where
  is_master : Bool
  loadPCDFile : Int
  model_names : List String
  found_solution : Bool
  object_transforms : List T
  object_point_clouds : List C
  model_bank_at : String → Option String

section Driver

variable {T C : Type}

/-- The steps up to the PCD load on the master: lines 43 to 63. -/
def master_input_steps : List (Event T C) :=
  [Event.ros_init, Event.Parse, Event.loadPCDFile]

/-- The steps from the construction of the recognizer to the retrieval of the
results, lines 82 to 99, on a process that got this far. -/
def recognition_steps (is_master : Bool) : List (Event T C) :=
  (if is_master then master_input_steps else []) ++
  [Event.ObjectRecognizer] ++
  (if is_master then [Event.ConvertModelNamesInFileToIDs] else []) ++
  [Event.barrier, Event.broadcast, Event.LocalizeObjects, Event.GetObjectPointClouds]

/-- The steps between the empty check and the output loop, lines 108 to 123. -/
def viewer_steps : List (Event T C) :=
  [Event.PCLVisualizer, Event.cout "Output transforms:\n"]

/-- The body of the output loop, lines 126 to 164, for the index `ii`: the steps it
takes and, when it does not reach its end, how the program ends instead. -/
def loop_body (run : Run T C) (ii : Nat) : List (Event T C) × Option Exit :=
  match run.model_names[ii]? with
  | none => ([], some Exit.out_of_bounds)
  | some model_name =>
    match run.object_transforms[ii]? with
    | none => ([Event.cout ("Object: " ++ model_name ++ "\n")], some Exit.out_of_bounds)
    | some transform =>
      match run.model_bank_at model_name with
      | none =>
        ([Event.cout ("Object: " ++ model_name ++ "\n"), Event.cout_matrix transform],
          some (Exit.uncaught "std::out_of_range"))
      | some model_file =>
        match run.object_point_clouds[ii]? with
        | none =>
          ([Event.cout ("Object: " ++ model_name ++ "\n"), Event.cout_matrix transform,
            Event.addPolygonMesh model_file transform model_name,
            Event.addCube "support_surface"], some Exit.out_of_bounds)
        | some cloud =>
          ([Event.cout ("Object: " ++ model_name ++ "\n"), Event.cout_matrix transform,
            Event.addPolygonMesh model_file transform model_name,
            Event.addCube "support_surface",
            Event.addPointCloud cloud (model_name ++ "cloud")], none)

/-- The loop `for (size_t ii = 0; ii < input.model_names.size(); ++ii)`, from the
index `ii` on; `remaining` is `input.model_names.size() - ii`, the number of
iterations still to run. -/
def output_loop (run : Run T C) : (remaining : Nat) → (ii : Nat) →
    List (Event T C) × Option Exit
  | 0, _ => ([], none)
  | remaining + 1, ii =>
    match loop_body run ii with
    | (steps, some stop) => (steps, some stop)
    | (steps, none) =>
      let rest := output_loop run remaining (ii + 1)
      (steps ++ rest.1, rest.2)

/-- The function `main` of `experiments.cpp` on one process: the steps it takes and
how it ends. -/
def main (run : Run T C) : List (Event T C) × Exit :=
  if run.is_master && run.loadPCDFile != 0 then
    (master_input_steps ++ [Event.cerr "Could not find input PCD file!\n"],
      Exit.returned (-1))
  else if run.is_master then
    if run.object_transforms.isEmpty then
      (recognition_steps true ++
        [Event.printf "PERCH could not find a solution for the given input\n"],
        Exit.returned 0)
    else
      match output_loop run run.model_names.length 0 with
      | (steps, some stop) => (recognition_steps true ++ viewer_steps ++ steps, stop)
      | (steps, none) =>
        (recognition_steps true ++ viewer_steps ++ steps ++ [Event.spin], Exit.returned 0)
  else
    (recognition_steps false, Exit.returned 0)

/-- The steps of one complete iteration of the output loop for a model name, its
transform and its point cloud. -/
def iteration_steps (model_name model_file : String) (transform : T) (cloud : C) :
    List (Event T C) :=
  [Event.cout ("Object: " ++ model_name ++ "\n"), Event.cout_matrix transform,
    Event.addPolygonMesh model_file transform model_name,
    Event.addCube "support_surface",
    Event.addPointCloud cloud (model_name ++ "cloud")]

end Driver

/-! ## Example data -/

/-- The history of the C5 example: a state with two placements, a state with one,
and the first state again with its objects placed in the other order. -/
def example_history : List GraphState :=
  [⟨[⟨0, ⟨1, 1, 0⟩⟩, ⟨1, ⟨2, 2, 0⟩⟩]⟩, ⟨[⟨0, ⟨1, 1, 0⟩⟩]⟩, ⟨[⟨1, ⟨2, 2, 0⟩⟩, ⟨0, ⟨1, 1, 0⟩⟩]⟩]

/-- The memory of the C5 example: an environment whose store interned the states of
`example_history`, starting empty. -/
def example_heap : Heap (EnvObjectRecognition Unit Unit Unit) :=
  ⟨⟨⟨(), (), (), (), (), (), (), (), 640, 480, 7, 0, 2, 3⟩,
      HashManager.empty.intern_all example_history, ()⟩, [4], [10], [true]⟩

/-- A run on the master in which the recognition returned one transform and one
point cloud for the model name "mug", and the model bank has no entry "mug". -/
def run_with_unknown_model : Run Nat Nat :=
  ⟨true, 0, ["mug"], true, [7], [9], fun _ => none⟩

/-- A run on the master with two model names, both in the model bank, three
transforms and two point clouds. -/
def run_with_two_models : Run Nat Nat :=
  ⟨true, 0, ["mug", "box"], true, [7, 8, 6], [9, 5],
    fun name => if name = "mug" then some "mug.obj"
      else if name = "box" then some "box.obj" else none⟩

/-- A history of `2^31` states that differ from one another: one object of model 0
at the positions `x = 0, 1, ..., 2^31 - 1`. -/
def wide_history : List GraphState :=
  (List.range (2 ^ 31)).map fun n : Nat => ⟨[⟨0, ⟨(n : Int), 0, 0⟩⟩]⟩

/-- An environment whose store interned the states of `wide_history`, starting
empty. -/
def wide_heap : Heap (EnvObjectRecognition Unit Unit Unit) :=
  ⟨⟨⟨(), (), (), (), (), (), (), (), 640, 480, 7, 0, 1, 1⟩,
      HashManager.empty.intern_all wide_history, ()⟩, [], [], []⟩

/-! # Properties -/

/-! ## Unsupported operations and the overloads for MHA -/

section InlineMemberProperties

variable {E : Type}

/-- C1: `GetPreds` does not signal an unsupported operation. For the target state
id 0 and empty output vectors it returns normally, with `PredIDV` and `CostV` still
empty and nothing written, where the sibling predecessor query `GetLazyPreds` throws
on the same memory. -/
theorem GetPreds_returns_normally :
    GetPreds 0 (⟨(), [], [], []⟩ : Heap Unit)
        = ⟨Outcome.returned (), ⟨(), [], [], []⟩, []⟩ ∧
      GetLazyPreds 0 (⟨(), [], [], []⟩ : Heap Unit)
        = ⟨Outcome.threw "unimplement", ⟨(), [], [], []⟩, []⟩ := by
  constructor <;> rfl

/-- C2: the operations marked as unsupported fail loudly. For every input and every
memory, both overloads of `GetLazyPreds`, `GetFromToHeuristic` and both overloads of
`GetStartHeuristic` throw the runtime error "unimplement": none returns a value,
and the environment and the vectors `pred_ids`, `costs` and `true_costs` are left as
they were. -/
theorem unsupported_operations_throw (q_id a b : Int) (h : Heap E) :
    GetLazyPreds a h = ⟨Outcome.threw "unimplement", h, []⟩ ∧
      GetLazyPreds_q q_id a h = ⟨Outcome.threw "unimplement", h, []⟩ ∧
      GetFromToHeuristic a b h = ⟨Outcome.threw "unimplement", h, []⟩ ∧
      GetStartHeuristic a h = ⟨Outcome.threw "unimplement", h, []⟩ ∧
      GetStartHeuristic_q q_id a h = ⟨Outcome.threw "unimplement", h, []⟩ ∧
      (∀ v, (GetFromToHeuristic a b h).outcome ≠ Outcome.returned v) ∧
      (∀ v, (GetStartHeuristic a h).outcome ≠ Outcome.returned v) ∧
      (∀ v, (GetStartHeuristic_q q_id a h).outcome ≠ Outcome.returned v) := by
  refine ⟨rfl, rfl, rfl, rfl, rfl, ?_, ?_, ?_⟩ <;>
    · intro v hv
      cases hv

/-- C8: the overload of `GetSuccs` for MHA does not depend on the queue id. Whatever
the single-queue `GetSuccs` does, for every `q_id` the overload ends the same way and
leaves `succ_ids`, `costs` and the environment exactly as the single-queue call on
the same memory, so two queues obtain the same result; the queue id shows only in
the line written to standard output before the delegation. -/
theorem GetSuccs_q_independent_of_queue (GetSuccs : Int → Call E Unit)
    (q_id q_id2 source_state_id : Int) (h : Heap E) :
    (GetSuccs_q GetSuccs q_id source_state_id h).outcome
        = (GetSuccs source_state_id h).outcome ∧
      (GetSuccs_q GetSuccs q_id source_state_id h).heap
        = (GetSuccs source_state_id h).heap ∧
      (GetSuccs_q GetSuccs q_id source_state_id h).printed
        = expanding_from q_id :: (GetSuccs source_state_id h).printed ∧
      (GetSuccs_q GetSuccs q_id source_state_id h).outcome
        = (GetSuccs_q GetSuccs q_id2 source_state_id h).outcome ∧
      (GetSuccs_q GetSuccs q_id source_state_id h).heap
        = (GetSuccs_q GetSuccs q_id2 source_state_id h).heap := by
  simp [GetSuccs_q, Call.seq, printf]

/-- C9: the overload of `GetLazySuccs` for MHA throws before doing anything else.
For every input and every memory it throws the runtime error "don't use lazy for
now...", writes nothing and leaves the environment and `succ_ids`, `costs` and
`true_costs` as they were; the result is the same whatever the single-queue
`GetLazySuccs` does, so the delegation is never reached. -/
theorem GetLazySuccs_q_throws_first (GetLazySuccs GetLazySuccs2 : Int → Call E Unit)
    (q_id source_state_id : Int) (h : Heap E) :
    GetLazySuccs_q GetLazySuccs q_id source_state_id h
        = ⟨Outcome.threw "don't use lazy for now...", h, []⟩ ∧
      GetLazySuccs_q GetLazySuccs q_id source_state_id h
        = GetLazySuccs_q GetLazySuccs2 q_id source_state_id h := by
  constructor <;> rfl

end InlineMemberProperties

/-! ## Goal test -/

section GoalTest

variable {R P X : Type}

/-- C4: `IsGoalState(s)` is true exactly when `s` has `env_params_.num_objects`
placements. It depends only on the number of placements: a state `t` with as many
placements as `s` is a goal exactly when `s` is, and giving `goal_state_id` another
value `g`, which is then what `GetGoalStateID` returns, changes the goal test of no
state. -/
theorem IsGoalState_iff_num_objects (env : EnvObjectRecognition R P X)
    (s t : GraphState) (g : Int) (ids costs : List Int) (true_costs : List Bool)
    (hcount : t.NumObjects = s.NumObjects) :
    (IsGoalState env s = true ↔ (s.NumObjects : Int) = env.env_params_.num_objects) ∧
      IsGoalState env t = IsGoalState env s ∧
      IsGoalState { env with env_params_ := { env.env_params_ with goal_state_id := g } } s
        = IsGoalState env s ∧
      (GetGoalStateID
          ⟨{ env with env_params_ := { env.env_params_ with goal_state_id := g } },
            ids, costs, true_costs⟩).outcome = Outcome.returned g := by
  refine ⟨?_, ?_, rfl, rfl⟩
  · simp [IsGoalState]
  · simp [IsGoalState, hcount]

/-- C4 at an environment with two objects and `goal_state_id` 7: a state with two
placements is a goal, whatever its placements are and whatever the goal id is. -/
theorem IsGoalState_iff_num_objects_witness :
    (⟨[⟨1, ⟨0, 0, 0⟩⟩, ⟨0, ⟨3, 4, 1⟩⟩]⟩ : GraphState).NumObjects
        = (⟨[⟨0, ⟨1, 1, 0⟩⟩, ⟨1, ⟨2, 2, 0⟩⟩]⟩ : GraphState).NumObjects ∧
      IsGoalState
        (⟨⟨(), (), (), (), (), (), (), (), 640, 480, 7, 0, 2, 3⟩, HashManager.empty, ()⟩ :
          EnvObjectRecognition Unit Unit Unit)
        ⟨[⟨0, ⟨1, 1, 0⟩⟩, ⟨1, ⟨2, 2, 0⟩⟩]⟩ = true :=
  ⟨rfl,
    ((IsGoalState_iff_num_objects
      (⟨⟨(), (), (), (), (), (), (), (), 640, 480, 7, 0, 2, 3⟩, HashManager.empty, ()⟩ :
        EnvObjectRecognition Unit Unit Unit)
      ⟨[⟨0, ⟨1, 1, 0⟩⟩, ⟨1, ⟨2, 2, 0⟩⟩]⟩ ⟨[⟨1, ⟨0, 0, 0⟩⟩, ⟨0, ⟨3, 4, 1⟩⟩]⟩ 9 [] [] []
      rfl).1).2 rfl⟩

end GoalTest

/-! ## The demo driver -/

section DriverProperties

variable {T C : Type}

/-- C7: on the master process, a run in which the PCD file was loaded and
`LocalizeObjects` left `object_transforms` empty prints that no solution was found
and returns 0 without creating the viewer or entering the output loop, whatever
`LocalizeObjects` returned. A run in which the PCD file cannot be loaded returns -1
after the message on `cerr`, before the recognizer is constructed and before
`LocalizeObjects` is called. The two outcomes differ. -/
theorem main_no_solution_and_input_fault (no_solution fault : Run T C)
    (found_solution : Bool)
    (hmaster : no_solution.is_master = true) (hload : no_solution.loadPCDFile = 0)
    (hempty : no_solution.object_transforms = [])
    (hmaster2 : fault.is_master = true) (hfault : fault.loadPCDFile ≠ 0) :
    main no_solution
        = (recognition_steps true ++
            [Event.printf "PERCH could not find a solution for the given input\n"],
          Exit.returned 0) ∧
      main { no_solution with found_solution := found_solution } = main no_solution ∧
      Event.PCLVisualizer ∉ (main no_solution).1 ∧
      Event.spin ∉ (main no_solution).1 ∧
      main fault
        = (master_input_steps ++ [Event.cerr "Could not find input PCD file!\n"],
          Exit.returned (-1)) ∧
      Event.ObjectRecognizer ∉ (main fault).1 ∧
      Event.LocalizeObjects ∉ (main fault).1 ∧
      (main no_solution).2 ≠ (main fault).2 := by
  have h1 : main no_solution
      = (recognition_steps true ++
          [Event.printf "PERCH could not find a solution for the given input\n"],
        Exit.returned 0) := by
    simp [main, hmaster, hload, hempty]
  have h2 : main fault
      = (master_input_steps ++ [Event.cerr "Could not find input PCD file!\n"],
        Exit.returned (-1)) := by
    simp [main, hmaster2, hfault]
  refine ⟨h1, ?_, ?_, ?_, h2, ?_, ?_, ?_⟩
  · simp [main, hmaster, hload, hempty]
  · simp [h1, recognition_steps, master_input_steps]
  · simp [h1, recognition_steps, master_input_steps]
  · simp [h2, master_input_steps]
  · simp [h2, master_input_steps]
  · simp [h1, h2]

/-- C7 at two runs on the master: one whose PCD file loads and whose recognition
reports success but leaves no transform, one whose PCD load returns -1. -/
theorem main_no_solution_and_input_fault_witness :
    (main (⟨true, 0, ["mug"], true, [], [5], fun _ => none⟩ : Run Nat Nat)).2
        = Exit.returned 0 ∧
      (main (⟨true, -1, [], false, [], [], fun _ => none⟩ : Run Nat Nat)).2
        = Exit.returned (-1) :=
  have h := main_no_solution_and_input_fault
    (⟨true, 0, ["mug"], true, [], [5], fun _ => none⟩ : Run Nat Nat)
    (⟨true, -1, [], false, [], [], fun _ => none⟩ : Run Nat Nat)
    false rfl rfl rfl rfl (by decide)
  ⟨by rw [h.1], by rw [h.2.2.2.2.1]⟩

end DriverProperties

/-! ## State store -/

section StoreProperties

/-- Two states are equal in the sense of the store exactly when they have the same
set of placements. -/
theorem GraphState.equal_iff_placements (s t : GraphState) :
    s.equal t = true ↔ s.placements = t.placements := by
  simp only [GraphState.equal, GraphState.placements, Bool.and_eq_true, List.all_eq_true,
    decide_eq_true_eq, Finset.ext_iff, List.mem_toFinset]
  constructor
  · rintro ⟨hst, hts⟩ o
    exact ⟨hst o, hts o⟩
  · intro h
    exact ⟨fun o ho => (h o).1 ho, fun o ho => (h o).2 ho⟩

/-- The lookup of a state depends on its set of placements only. -/
theorem HashManager.find_id_congr (s s2 : GraphState) (l : List GraphState)
    (h : s.placements = s2.placements) :
    HashManager.find_id s l = HashManager.find_id s2 l := by
  induction l with
  | nil => rfl
  | cons t rest ih =>
    have heq : t.equal s = t.equal s2 := by
      rw [Bool.eq_iff_iff, GraphState.equal_iff_placements,
        GraphState.equal_iff_placements, h]
    simp [HashManager.find_id, heq, ih]

/-- An id that the lookup finds is the position of a stored state with the same
placements. -/
theorem HashManager.find_id_some (s : GraphState) (l : List GraphState) (i : Nat)
    (h : HashManager.find_id s l = some i) :
    ∃ t, l[i]? = some t ∧ t.placements = s.placements := by
  induction l generalizing i with
  | nil => simp [HashManager.find_id] at h
  | cons t rest ih =>
    by_cases ht : t.equal s = true
    · simp [HashManager.find_id, ht] at h
      subst h
      exact ⟨t, by simp, (GraphState.equal_iff_placements t s).1 ht⟩
    · simp only [HashManager.find_id, ht, Bool.false_eq_true, if_false, Option.map_eq_some'] at h
      obtain ⟨j, hj, rfl⟩ := h
      obtain ⟨u, hu, hup⟩ := ih j hj
      exact ⟨u, by simpa using hu, hup⟩

/-- An id that the lookup finds is below the number of stored states. -/
theorem HashManager.find_id_lt (s : GraphState) (l : List GraphState) (i : Nat)
    (h : HashManager.find_id s l = some i) : i < l.length := by
  obtain ⟨t, ht, _⟩ := HashManager.find_id_some s l i h
  exact (List.getElem?_eq_some.1 ht).1

/-- The lookup fails exactly when no stored state has the placements of the state. -/
theorem HashManager.find_id_none (s : GraphState) (l : List GraphState) :
    HashManager.find_id s l = none ↔ ∀ t ∈ l, t.placements ≠ s.placements := by
  induction l with
  | nil => simp [HashManager.find_id]
  | cons t rest ih =>
    by_cases ht : t.equal s = true
    · have hp := (GraphState.equal_iff_placements t s).1 ht
      simp [HashManager.find_id, ht, hp]
    · have hp : t.placements ≠ s.placements :=
        fun hp => ht ((GraphState.equal_iff_placements t s).2 hp)
      simp [HashManager.find_id, ht, hp, ih]

/-- Storing further states does not change an id that the lookup finds. -/
theorem HashManager.find_id_append (s : GraphState) (l more : List GraphState) (i : Nat)
    (h : HashManager.find_id s l = some i) :
    HashManager.find_id s (l ++ more) = some i := by
  induction l generalizing i with
  | nil => simp [HashManager.find_id] at h
  | cons t rest ih =>
    by_cases ht : t.equal s = true
    · simpa [HashManager.find_id, ht] using h
    · simp only [HashManager.find_id, ht, Bool.false_eq_true, if_false, Option.map_eq_some'] at h
      obtain ⟨j, hj, rfl⟩ := h
      simp [HashManager.find_id, ht, ih j hj]

/-- A state stored at the end of a store that did not hold it gets the next id. -/
theorem HashManager.find_id_append_self (s : GraphState) (l : List GraphState)
    (h : HashManager.find_id s l = none) :
    HashManager.find_id s (l ++ [s]) = some l.length := by
  induction l with
  | nil =>
    have hs : s.equal s = true := (GraphState.equal_iff_placements s s).2 rfl
    simp [HashManager.find_id, hs]
  | cons t rest ih =>
    by_cases ht : t.equal s = true
    · simp [HashManager.find_id, ht] at h
    · simp only [HashManager.find_id, ht, Bool.false_eq_true, if_false, Option.map_eq_none'] at h
      simp [HashManager.find_id, ht, ih h]

/-- Interning keeps the stored states and their ids, and stores at most one more. -/
theorem HashManager.intern_states (hm : HashManager) (s : GraphState) :
    ∃ more, (hm.intern s).2.states = hm.states ++ more := by
  unfold HashManager.intern
  cases h : HashManager.find_id s hm.states with
  | none => exact ⟨[s], rfl⟩
  | some i => exact ⟨[], by simp⟩

/-- After a state was interned, the lookup finds it under the id it was given. -/
theorem HashManager.find_id_intern (hm : HashManager) (s : GraphState) :
    HashManager.find_id s (hm.intern s).2.states = some (hm.intern s).1 := by
  unfold HashManager.intern
  cases h : HashManager.find_id s hm.states with
  | none => simpa using HashManager.find_id_append_self s hm.states h
  | some i => simpa using h

/-- Interning a sequence of states keeps the stored states and their ids. -/
theorem HashManager.intern_all_states (hm : HashManager) (history : List GraphState) :
    ∃ more, (hm.intern_all history).states = hm.states ++ more := by
  induction history generalizing hm with
  | nil => exact ⟨[], by simp [HashManager.intern_all]⟩
  | cons s rest ih =>
    obtain ⟨m1, h1⟩ := HashManager.intern_states hm s
    obtain ⟨m2, h2⟩ := ih (hm.intern s).2
    refine ⟨m1 ++ m2, ?_⟩
    have : hm.intern_all (s :: rest) = (hm.intern s).2.intern_all rest := rfl
    rw [this, h2, h1, List.append_assoc]

/-- The id given to a state that the lookup finds. -/
theorem HashManager.intern_fst_of_some (hm : HashManager) (s : GraphState) (i : Nat)
    (h : HashManager.find_id s hm.states = some i) : (hm.intern s).1 = i := by
  simp [HashManager.intern, h]

/-- The id given to a state that the lookup does not find. -/
theorem HashManager.intern_fst_of_none (hm : HashManager) (s : GraphState)
    (h : HashManager.find_id s hm.states = none) :
    (hm.intern s).1 = hm.states.length := by
  simp [HashManager.intern, h]

/-- C3: the state store gives two states the same id exactly when their sets of
`(model_id, pose)` placements are equal. For every store, every state `s` interned
in it, every sequence of states interned after `s` and every state `s2` interned
after those, the id of `s2` is the id of `s` if and only if the placements of `s`
and `s2` are the same set; in particular a state whose objects were placed in the
reverse order gets the id of `s`. -/
theorem intern_same_id_iff_same_placements (hm : HashManager) (s : GraphState)
    (between : List GraphState) (s2 : GraphState) :
    ((((hm.intern s).2.intern_all between).intern s2).1 = (hm.intern s).1
        ↔ s.placements = s2.placements) ∧
      (((hm.intern s).2.intern_all between).intern ⟨s.object_states.reverse⟩).1
        = (hm.intern s).1 := by
  have key : ∀ u : GraphState,
      (((hm.intern s).2.intern_all between).intern u).1 = (hm.intern s).1
        ↔ s.placements = u.placements := by
    intro u
    obtain ⟨more, hmore⟩ := HashManager.intern_all_states (hm.intern s).2 between
    have hs : HashManager.find_id s ((hm.intern s).2.intern_all between).states
        = some (hm.intern s).1 := by
      rw [hmore]
      exact HashManager.find_id_append s _ more _ (HashManager.find_id_intern hm s)
    generalize (hm.intern s).2.intern_all between = later at hs
    generalize (hm.intern s).1 = i at hs
    constructor
    · intro hid
      cases hu : HashManager.find_id u later.states with
      | none =>
        have hlt := HashManager.find_id_lt s _ _ hs
        rw [HashManager.intern_fst_of_none later u hu] at hid
        omega
      | some j =>
        rw [HashManager.intern_fst_of_some later u j hu] at hid
        subst hid
        obtain ⟨t1, ht1, hp1⟩ := HashManager.find_id_some s _ _ hs
        obtain ⟨t2, ht2, hp2⟩ := HashManager.find_id_some u _ _ hu
        rw [ht1] at ht2
        cases ht2
        rw [← hp1, hp2]
    · intro hp
      have hu := HashManager.find_id_congr s u later.states hp
      rw [hs] at hu
      exact HashManager.intern_fst_of_some later u i hu.symm
  refine ⟨key s2, (key ⟨s.object_states.reverse⟩).2 ?_⟩
  simp [GraphState.placements, List.toFinset_reverse]

/-- The empty store tracks the empty history. -/
theorem HashManager.tracks_empty : HashManager.empty.Tracks [] := by
  simp [HashManager.Tracks, HashManager.empty]

/-- Interning a state keeps the stored sets of placements pairwise different and
adds the set of the interned state to them. -/
theorem HashManager.tracks_intern (hm : HashManager) (history : List GraphState)
    (s : GraphState) (h : hm.Tracks history) :
    (hm.intern s).2.Tracks (history ++ [s]) := by
  obtain ⟨hnodup, hsets⟩ := h
  unfold HashManager.intern
  cases hfind : HashManager.find_id s hm.states with
  | some i =>
    obtain ⟨t, ht, hp⟩ := HashManager.find_id_some s hm.states i hfind
    have hmem : s.placements ∈ (hm.states.map GraphState.placements).toFinset := by
      rw [List.mem_toFinset, List.mem_map]
      exact ⟨t, (List.mem_iff_getElem?.2 ⟨i, ht⟩), hp⟩
    refine ⟨hnodup, ?_⟩
    simp only [List.map_append, List.map_cons, List.map_nil, List.toFinset_append,
      List.toFinset_cons, List.toFinset_nil, ← hsets]
    ext x
    simp only [Finset.mem_union, Finset.mem_insert, Finset.not_mem_empty, or_false]
    constructor
    · intro hx
      exact Or.inl hx
    · rintro (hx | rfl)
      · exact hx
      · exact hmem
  | none =>
    have hnot : s.placements ∉ hm.states.map GraphState.placements := by
      intro hmem
      obtain ⟨t, ht, hp⟩ := List.mem_map.1 hmem
      exact (HashManager.find_id_none s hm.states).1 hfind t ht hp
    refine ⟨?_, ?_⟩
    · simp only [List.map_append, List.map_cons, List.map_nil]
      rw [List.nodup_append]
      refine ⟨hnodup, List.nodup_singleton _, ?_⟩
      intro x hx hx2
      rw [List.mem_singleton] at hx2
      subst hx2
      exact hnot hx
    · simp only [List.map_append, List.map_cons, List.map_nil, List.toFinset_append, hsets]

/-- Interning a sequence of states keeps track of every state interned. -/
theorem HashManager.tracks_intern_all (hm : HashManager) (history more : List GraphState)
    (h : hm.Tracks history) : (hm.intern_all more).Tracks (history ++ more) := by
  induction more generalizing hm history with
  | nil => simpa [HashManager.intern_all] using h
  | cons s rest ih =>
    have step := ih (hm.intern s).2 (history ++ [s]) (HashManager.tracks_intern hm history s h)
    have : hm.intern_all (s :: rest) = (hm.intern s).2.intern_all rest := rfl
    rw [this]
    simpa using step

/-- A store that tracks a history holds as many states as the history has distinct
states. -/
theorem HashManager.size_of_tracks (hm : HashManager) (history : List GraphState)
    (h : hm.Tracks history) : hm.Size = number_of_distinct_states history := by
  obtain ⟨hnodup, hsets⟩ := h
  unfold number_of_distinct_states HashManager.Size
  rw [← hsets, List.toFinset_card_of_nodup hnodup, List.length_map]

/-- The conversion to `int` keeps a count below `2^31`. -/
theorem static_cast_int_of_lt (n : Nat) (h : n < 2 ^ 31) : static_cast_int n = (n : Int) := by
  have h1 : n % 2 ^ 32 = n := Nat.mod_eq_of_lt (by omega)
  unfold static_cast_int
  rw [h1, if_pos h]

/-- A store that tracks a history does not find a state that differs from every
state of the history, and finds every state that equals one of them. -/
theorem HashManager.find_id_of_tracks (hm : HashManager) (history : List GraphState)
    (s : GraphState) (h : hm.Tracks history) :
    HashManager.find_id s hm.states = none ↔ ∀ t ∈ history, t.equal s = false := by
  have hsets := h.2
  have hmem : s.placements ∈ (hm.states.map GraphState.placements).toFinset
      ↔ s.placements ∈ (history.map GraphState.placements).toFinset := by rw [hsets]
  simp only [List.mem_toFinset, List.mem_map] at hmem
  rw [HashManager.find_id_none]
  constructor
  · intro hnone t ht
    cases heq : t.equal s with
    | false => rfl
    | true =>
      obtain ⟨u, hu, hp⟩ := hmem.2 ⟨t, ht, (GraphState.equal_iff_placements t s).1 heq⟩
      exact absurd hp (hnone u hu)
  · intro hnone t ht hp
    obtain ⟨u, hu, hp2⟩ := hmem.1 ⟨t, ht, hp⟩
    have := hnone u hu
    rw [(GraphState.equal_iff_placements u s).2 hp2] at this
    cases this

end StoreProperties

/-! ## Size of the created environment -/

section SizeProperties

variable {R P X : Type}

/-- A history has at most as many distinct states as it has states. -/
theorem number_of_distinct_states_le (history : List GraphState) :
    number_of_distinct_states history ≤ history.length := by
  unfold number_of_distinct_states
  calc (history.map GraphState.placements).toFinset.card
      ≤ (history.map GraphState.placements).length := List.toFinset_card_le _
    _ = history.length := List.length_map _ _

/-- One more state in the history makes one more distinct state exactly when it
equals none of the earlier ones. -/
theorem number_of_distinct_states_append (history : List GraphState) (s : GraphState) :
    number_of_distinct_states (history ++ [s])
      = number_of_distinct_states history
        + (if history.any (fun t => t.equal s) then 0 else 1) := by
  unfold number_of_distinct_states
  have hinsert : ((history ++ [s]).map GraphState.placements).toFinset
      = insert s.placements (history.map GraphState.placements).toFinset := by
    ext x
    simp only [List.map_append, List.map_cons, List.map_nil, List.toFinset_append,
      List.toFinset_cons, List.toFinset_nil, Finset.mem_union, Finset.mem_insert,
      Finset.not_mem_empty, or_false]
    tauto
  have hany : history.any (fun t => t.equal s) = true
      ↔ s.placements ∈ (history.map GraphState.placements).toFinset := by
    simp only [List.any_eq_true, List.mem_toFinset, List.mem_map,
      GraphState.equal_iff_placements]
  rw [hinsert]
  by_cases hmem : s.placements ∈ (history.map GraphState.placements).toFinset
  · rw [Finset.card_insert_of_mem hmem, if_pos (hany.2 hmem)]
    rfl
  · rw [Finset.card_insert_of_not_mem hmem, if_neg (fun hc => hmem (hany.1 hc))]

/-- The store of an environment that interned a history and then one more state is
the store that interned the longer history. -/
theorem EnvObjectRecognition.intern_store (env : EnvObjectRecognition R P X)
    (history : List GraphState) (s : GraphState)
    (hstore : env.hash_manager_ = HashManager.empty.intern_all history) :
    (env.intern s).hash_manager_ = HashManager.empty.intern_all (history ++ [s]) := by
  simp [EnvObjectRecognition.intern, HashManager.intern_all, List.foldl_append, hstore]

/-- The size of a store that interned a history, starting empty, is the number of
distinct states of the history. -/
theorem HashManager.size_intern_all (history : List GraphState) :
    (HashManager.empty.intern_all history).Size = number_of_distinct_states history := by
  apply HashManager.size_of_tracks
  simpa using HashManager.tracks_intern_all HashManager.empty [] history
    HashManager.tracks_empty

/-- The call returns the size of the store converted to `int` and changes nothing. -/
theorem SizeofCreatedEnv_eq (h : Heap (EnvObjectRecognition R P X)) :
    SizeofCreatedEnv h
      = ⟨Outcome.returned (static_cast_int h.this.hash_manager_.Size), h, []⟩ :=
  rfl

/-- C5, amended: `SizeofCreatedEnv()` returns `hash_manager_.Size()` converted to
`int` and leaves the store as it is. In an environment whose store was filled by
interning the states of `history`, starting empty, the size of the store is the
number of distinct states of `history`; the call on the empty store returns 0;
interning one more state makes the size one larger when the state equals none of
`history` and leaves it as it is when the state equals one of them. While the
number of distinct states is below `2^31` the call returns exactly that number,
before and after the further state is interned. -/
theorem SizeofCreatedEnv_counts_distinct_states (h : Heap (EnvObjectRecognition R P X))
    (history : List GraphState) (s : GraphState)
    (hstore : h.this.hash_manager_ = HashManager.empty.intern_all history) :
    SizeofCreatedEnv h
        = ⟨Outcome.returned (static_cast_int h.this.hash_manager_.Size), h, []⟩ ∧
      h.this.hash_manager_.Size = number_of_distinct_states history ∧
      (SizeofCreatedEnv
          { h with this := { h.this with hash_manager_ := HashManager.empty } }).outcome
        = Outcome.returned 0 ∧
      (h.this.intern s).hash_manager_ = HashManager.empty.intern_all (history ++ [s]) ∧
      (h.this.intern s).hash_manager_.Size
        = h.this.hash_manager_.Size
          + (if history.any (fun t => t.equal s) then 0 else 1) ∧
      (number_of_distinct_states history < 2 ^ 31 →
        (SizeofCreatedEnv h).outcome
          = Outcome.returned (number_of_distinct_states history : Int)) ∧
      (number_of_distinct_states (history ++ [s]) < 2 ^ 31 →
        (SizeofCreatedEnv { h with this := h.this.intern s }).outcome
          = Outcome.returned ((number_of_distinct_states history : Int)
            + (if history.any (fun t => t.equal s) then 0 else 1))) := by
  have hsize : h.this.hash_manager_.Size = number_of_distinct_states history := by
    rw [hstore]
    exact HashManager.size_intern_all history
  have hafter := EnvObjectRecognition.intern_store h.this history s hstore
  have hsize2 : (h.this.intern s).hash_manager_.Size
      = number_of_distinct_states (history ++ [s]) := by
    rw [hafter]
    exact HashManager.size_intern_all (history ++ [s])
  have happend := number_of_distinct_states_append history s
  refine ⟨rfl, hsize, ?_, hafter, ?_, ?_, ?_⟩
  · simp [SizeofCreatedEnv, Call.ret, HashManager.empty, HashManager.Size, static_cast_int]
  · rw [hsize2, happend, hsize]
  · intro hint
    simp only [SizeofCreatedEnv, Call.ret, hsize]
    rw [static_cast_int_of_lt _ hint]
  · intro hint
    simp only [SizeofCreatedEnv, Call.ret, hsize2]
    rw [static_cast_int_of_lt _ hint, happend]
    split <;> simp

/-- C5, amended, on a store that interned three states, two of them equal: the call
returns 2; after a state with a new placement is interned it returns 3; after the
first state is interned once more it still returns 2. -/
theorem SizeofCreatedEnv_counts_distinct_states_witness :
    (SizeofCreatedEnv example_heap).outcome = Outcome.returned 2 ∧
      (SizeofCreatedEnv
        { example_heap with
          this := example_heap.this.intern ⟨[⟨2, ⟨0, 0, 0⟩⟩]⟩ }).outcome = Outcome.returned 3 ∧
      (SizeofCreatedEnv
        { example_heap with
          this := example_heap.this.intern
            ⟨[⟨0, ⟨1, 1, 0⟩⟩, ⟨1, ⟨2, 2, 0⟩⟩]⟩ }).outcome = Outcome.returned 2 := by
  have hfresh := SizeofCreatedEnv_counts_distinct_states example_heap example_history
    ⟨[⟨2, ⟨0, 0, 0⟩⟩]⟩ rfl
  have hseen := SizeofCreatedEnv_counts_distinct_states example_heap example_history
    ⟨[⟨0, ⟨1, 1, 0⟩⟩, ⟨1, ⟨2, 2, 0⟩⟩]⟩ rfl
  have hcount : number_of_distinct_states example_history = 2 := by
    rw [← hfresh.2.1]
    decide
  have hsmall : ∀ s : GraphState,
      number_of_distinct_states (example_history ++ [s]) < 2 ^ 31 := fun s =>
    Nat.lt_of_le_of_lt (number_of_distinct_states_le (example_history ++ [s]))
      (by simp [example_history])
  have r0 := hfresh.2.2.2.2.2.1 (by rw [hcount]; decide)
  have r1 := hfresh.2.2.2.2.2.2 (hsmall _)
  have r2 := hseen.2.2.2.2.2.2 (hsmall _)
  rw [hcount] at r0 r1 r2
  exact ⟨r0, r1, r2⟩

/-- C5 as stated fails: in an environment whose store interned `2^31` distinct
states, one object at `2^31` different positions, the number of distinct states is
`2147483648` and `SizeofCreatedEnv()` returns `-2147483648`. -/
theorem SizeofCreatedEnv_wraps_at_int_range :
    wide_heap.this.hash_manager_ = HashManager.empty.intern_all wide_history ∧
      number_of_distinct_states wide_history = 2147483648 ∧
      (SizeofCreatedEnv wide_heap).outcome = Outcome.returned (-2147483648) ∧
      (SizeofCreatedEnv wide_heap).outcome
        ≠ Outcome.returned (number_of_distinct_states wide_history : Int) := by
  have hinj : Function.Injective
      (GraphState.placements ∘ fun n : Nat => (⟨[⟨0, ⟨(n : Int), 0, 0⟩⟩]⟩ : GraphState)) := by
    intro a b hab
    simp only [Function.comp, GraphState.placements, List.toFinset_cons, List.toFinset_nil,
      insert_emptyc_eq, Finset.singleton_inj, ObjectState.mk.injEq, DiscPose.mk.injEq,
      true_and, and_true] at hab
    exact_mod_cast hab
  have hcount : number_of_distinct_states wide_history = 2147483648 := by
    unfold number_of_distinct_states wide_history
    rw [List.map_map, List.toFinset_card_of_nodup (List.Nodup.map hinj (List.nodup_range _)),
      List.length_map, List.length_range]
    norm_num
  have hstore : wide_heap.this.hash_manager_ = HashManager.empty.intern_all wide_history := by
    simp only [wide_heap]
  have hsize : wide_heap.this.hash_manager_.Size = 2147483648 := by
    rw [hstore, ← hcount]
    exact HashManager.size_intern_all wide_history
  have hcast : static_cast_int 2147483648 = -2147483648 := by
    unfold static_cast_int
    norm_num
  have hout : (SizeofCreatedEnv wide_heap).outcome = Outcome.returned (-2147483648) := by
    rw [SizeofCreatedEnv_eq wide_heap]
    simp only [hsize, hcast]
  refine ⟨hstore, hcount, hout, ?_⟩
  rw [hout, hcount]
  intro hc
  cases hc

end SizeProperties

/-! ## Parallel cost dispatcher -/

section DispatcherProperties

variable {I O : Type}

/-- A buffer in which every entry is present is surfaced whole. -/
theorem surface_results_map_some (results : List O) :
    surface_results (results.map some) = some results := by
  induction results with
  | nil => rfl
  | cons r rest ih => simp [surface_results, ih]

/-- The slices of `num_processes` processes cover a batch of `n` entries. -/
theorem le_mul_slice_length (num_processes n : Nat) (hp : 0 < num_processes) :
    n ≤ num_processes * slice_length num_processes n := by
  unfold slice_length
  have h1 := Nat.div_add_mod (n + num_processes - 1) num_processes
  have h2 := Nat.mod_lt (n + num_processes - 1) hp
  omega

/-- Every index of the batch belongs to the block of a participating process. -/
theorem block_rank_lt (num_processes n i : Nat) (hp : 0 < num_processes) (hi : i < n) :
    i / slice_length num_processes n < num_processes := by
  have hcover := le_mul_slice_length num_processes n hp
  have hpos : 0 < slice_length num_processes n := by
    rcases Nat.eq_zero_or_pos (slice_length num_processes n) with h0 | h0
    · rw [h0] at hcover
      omega
    · exact h0
  rw [Nat.div_lt_iff_lt_mul hpos]
  have hcomm := Nat.mul_comm num_processes (slice_length num_processes n)
  omega

/-- Every result a process sends carries the index of an input of the batch and the
Cost Evaluator's result for that input. -/
theorem received_sound (CostEvaluator : I → O) (num_processes : Nat) (arrival : List Nat)
    (input : List I) (message : Nat × O)
    (h : message ∈ arrival.flatMap fun rank =>
      worker_results CostEvaluator (assigned_slice num_processes rank input)) :
    (input[message.1]?).map CostEvaluator = some message.2 := by
  obtain ⟨rank, _, hmem⟩ := List.mem_flatMap.1 h
  obtain ⟨item, hitem, rfl⟩ := List.mem_map.1 hmem
  have henum := (List.mem_filter.1 hitem).1
  rw [List.mem_enum_iff_getElem?] at henum
  simp [henum]

/-- Every input of the batch is evaluated by the process that holds its block, when
the results of all processes arrive. -/
theorem received_complete (CostEvaluator : I → O) (num_processes : Nat) (arrival : List Nat)
    (input : List I) (i : Nat) (hp : 0 < num_processes)
    (harrival : arrival.Perm (List.range num_processes)) (hi : i < input.length) :
    (i, CostEvaluator input[i]) ∈ arrival.flatMap fun rank =>
      worker_results CostEvaluator (assigned_slice num_processes rank input) := by
  refine List.mem_flatMap.2 ⟨i / slice_length num_processes input.length, ?_, ?_⟩
  · rw [harrival.mem_iff, List.mem_range]
    exact block_rank_lt num_processes input.length i hp hi
  · refine List.mem_map.2 ⟨(i, input[i]), ?_, rfl⟩
    refine List.mem_filter.2 ⟨?_, by simp⟩
    rw [List.mem_enum_iff_getElem?]
    simp [hi]

/-- The coordinator finds, for every index of the batch, the Cost Evaluator's result
for the input at that index. -/
theorem gathered_entry_eq (CostEvaluator : I → O) (num_processes : Nat) (arrival : List Nat)
    (input : List I) (i : Nat) (hp : 0 < num_processes)
    (harrival : arrival.Perm (List.range num_processes)) (hi : i < input.length) :
    gathered_entry (arrival.flatMap fun rank =>
      worker_results CostEvaluator (assigned_slice num_processes rank input)) i
      = some (CostEvaluator input[i]) := by
  unfold gathered_entry
  cases hfind : List.find? (fun message : Nat × O => message.1 == i)
      (arrival.flatMap fun rank =>
        worker_results CostEvaluator (assigned_slice num_processes rank input)) with
  | none =>
    have hnone := List.find?_eq_none.1 hfind _
      (received_complete CostEvaluator num_processes arrival input i hp harrival hi)
    simp at hnone
  | some message =>
    have hkey : message.1 = i := by simpa using List.find?_some hfind
    have hsound := received_sound CostEvaluator num_processes arrival input message
      (List.mem_of_find?_eq_some hfind)
    rw [hkey] at hsound
    simp [hi] at hsound
    simp [hsound]

/-- With any positive number of processes and any order of arrival of their results,
the collective returns the results of sequential evaluation, in the order of the
input. -/
theorem ComputeCostsInParallel_eq_sequential (CostEvaluator : I → O) (num_processes : Nat)
    (arrival : List Nat) (input : List I) (hp : 0 < num_processes)
    (harrival : arrival.Perm (List.range num_processes)) :
    ComputeCostsInParallel CostEvaluator num_processes arrival input
      = some (sequential_evaluation CostEvaluator input) := by
  unfold ComputeCostsInParallel sequential_evaluation
  have hbuffer : (List.range input.length).map
      (gathered_entry (arrival.flatMap fun rank =>
        worker_results CostEvaluator (assigned_slice num_processes rank input)))
      = (input.map CostEvaluator).map some := by
    apply List.ext_getElem
    · simp
    · intro i h1 h2
      have hi : i < input.length := by simpa using h1
      simp [gathered_entry_eq CostEvaluator num_processes arrival input i hp harrival hi]
  simp only [hbuffer]
  exact surface_results_map_some _

/-- C6: for every input batch, `ComputeCostsInParallel` with 1, 2 and 4 participating
processes, in whatever order the results of the processes arrive, produces the same
output batch: it has the length of the input, its entry at every index is the Cost
Evaluator's result for the input at that index, and it is the result of local
sequential evaluation. -/
theorem ComputeCostsInParallel_same_for_1_2_4 (CostEvaluator : I → O) (input : List I)
    (arrival1 arrival2 arrival4 : List Nat) (i : Nat)
    (h1 : arrival1.Perm (List.range 1)) (h2 : arrival2.Perm (List.range 2))
    (h4 : arrival4.Perm (List.range 4)) :
    ∃ output : List O,
      ComputeCostsInParallel CostEvaluator 1 arrival1 input = some output ∧
      ComputeCostsInParallel CostEvaluator 2 arrival2 input = some output ∧
      ComputeCostsInParallel CostEvaluator 4 arrival4 input = some output ∧
      output.length = input.length ∧
      output[i]? = (input[i]?).map CostEvaluator ∧
      output = sequential_evaluation CostEvaluator input := by
  refine ⟨sequential_evaluation CostEvaluator input,
    ComputeCostsInParallel_eq_sequential CostEvaluator 1 arrival1 input (by decide) h1,
    ComputeCostsInParallel_eq_sequential CostEvaluator 2 arrival2 input (by decide) h2,
    ComputeCostsInParallel_eq_sequential CostEvaluator 4 arrival4 input (by decide) h4,
    ?_, ?_, rfl⟩
  · simp [sequential_evaluation]
  · simp [sequential_evaluation]

/-- C6 on a batch of five inputs with the evaluator that adds one: the results of
two processes arrive in the order 1, 0 and those of four in the order 2, 0, 3, 1, and
each of the three runs returns the results in the order of the input. -/
theorem ComputeCostsInParallel_same_for_1_2_4_witness :
    ComputeCostsInParallel (fun x : Nat => x + 1) 1 [0] [10, 20, 30, 40, 50]
        = some [11, 21, 31, 41, 51] ∧
      ComputeCostsInParallel (fun x : Nat => x + 1) 2 [1, 0] [10, 20, 30, 40, 50]
        = some [11, 21, 31, 41, 51] ∧
      ComputeCostsInParallel (fun x : Nat => x + 1) 4 [2, 0, 3, 1] [10, 20, 30, 40, 50]
        = some [11, 21, 31, 41, 51] := by
  obtain ⟨output, r1, r2, r4, _, _, hseq⟩ :=
    ComputeCostsInParallel_same_for_1_2_4 (fun x : Nat => x + 1) [10, 20, 30, 40, 50]
      [0] [1, 0] [2, 0, 3, 1] 0 (by decide) (by decide) (by decide)
  have hout : output = [11, 21, 31, 41, 51] := by
    rw [hseq]
    rfl
  rw [hout] at r1 r2 r4
  exact ⟨r1, r2, r4⟩

end DispatcherProperties

/-! ## The output loop of the demo driver -/

section OutputLoop

variable {T C : Type}

/-- An iteration of the output loop whose index is below the number of model names,
of transforms and of point clouds, and whose model name is in the model bank, runs
to its end on the entries at that index. -/
theorem loop_body_complete (run : Run T C) (ii : Nat)
    (hii : ii < run.model_names.length)
    (htransforms : run.model_names.length ≤ run.object_transforms.length)
    (hclouds : run.model_names.length ≤ run.object_point_clouds.length)
    (hbank : ∀ name ∈ run.model_names, (run.model_bank_at name).isSome = true) :
    ∃ model_name model_file transform cloud,
      run.model_names[ii]? = some model_name ∧
      run.object_transforms[ii]? = some transform ∧
      run.object_point_clouds[ii]? = some cloud ∧
      run.model_bank_at model_name = some model_file ∧
      loop_body run ii = (iteration_steps model_name model_file transform cloud, none) := by
  have ht : ii < run.object_transforms.length := by omega
  have hc : ii < run.object_point_clouds.length := by omega
  obtain ⟨model_file, hfile⟩ :=
    Option.isSome_iff_exists.1 (hbank run.model_names[ii] (List.getElem_mem _))
  refine ⟨run.model_names[ii], model_file, run.object_transforms[ii],
    run.object_point_clouds[ii], by simp [hii], by simp [ht], by simp [hc], hfile, ?_⟩
  simp [loop_body, hii, ht, hc, hfile, iteration_steps]

/-- A loop all of whose iterations run to their end takes the steps of the iterations
one after the other, in the order of the indices. -/
theorem output_loop_complete (run : Run T C)
    (hall : ∀ ii, ii < run.model_names.length → (loop_body run ii).2 = none)
    (remaining ii : Nat) (hsum : ii + remaining = run.model_names.length) :
    output_loop run remaining ii
      = ((List.range' ii remaining).flatMap fun j => (loop_body run j).1, none) := by
  induction remaining generalizing ii with
  | zero => simp [output_loop]
  | succ k ih =>
    have hbody := hall ii (by omega)
    have hrest := ih (ii + 1) (by omega)
    cases hb : loop_body run ii with
    | mk steps stop =>
      rw [hb] at hbody
      simp only at hbody
      subst hbody
      simp [output_loop, hb, hrest, List.range'_succ]

/-- C10, amended: on the master process, when the PCD file was loaded,
`object_transforms` is not empty, `object_transforms` and the list of point clouds
have at least as many entries as there are model names, and every model name has an
entry in the model bank, the output loop runs once per model name in the order of
the indices, each iteration pairs the model name, the transform and the point cloud
at its index, all within bounds, and `main` returns 0 after the viewer spun. -/
theorem main_output_loop_once_per_model (run : Run T C)
    (hmaster : run.is_master = true) (hload : run.loadPCDFile = 0)
    (hnonempty : run.object_transforms ≠ [])
    (htransforms : run.model_names.length ≤ run.object_transforms.length)
    (hclouds : run.model_names.length ≤ run.object_point_clouds.length)
    (hbank : ∀ name ∈ run.model_names, (run.model_bank_at name).isSome = true) :
    main run
        = (recognition_steps true ++ viewer_steps ++
            ((List.range run.model_names.length).flatMap fun ii => (loop_body run ii).1) ++
            [Event.spin],
          Exit.returned 0) ∧
      ∀ ii, ii < run.model_names.length →
        ∃ model_name model_file transform cloud,
          run.model_names[ii]? = some model_name ∧
          run.object_transforms[ii]? = some transform ∧
          run.object_point_clouds[ii]? = some cloud ∧
          run.model_bank_at model_name = some model_file ∧
          loop_body run ii
            = (iteration_steps model_name model_file transform cloud, none) := by
  have hbodies := fun ii hii =>
    loop_body_complete run ii hii htransforms hclouds hbank
  have hall : ∀ ii, ii < run.model_names.length → (loop_body run ii).2 = none := by
    intro ii hii
    obtain ⟨_, _, _, _, _, _, _, _, hbody⟩ := hbodies ii hii
    rw [hbody]
  have hloop := output_loop_complete run hall run.model_names.length 0 (by omega)
  refine ⟨?_, hbodies⟩
  have hne : run.object_transforms.isEmpty = false := by
    cases h : run.object_transforms with
    | nil => exact absurd h hnonempty
    | cons _ _ => rfl
  simp [main, hmaster, hload, hne, hloop, List.range_eq_range']

/-- C10, amended, on a run with the model names "mug" and "box", three transforms
and two point clouds: the loop pairs "mug" with the first transform and cloud, then
"box" with the second, and `main` returns 0. -/
theorem main_output_loop_once_per_model_witness :
    main run_with_two_models
      = (recognition_steps true ++ viewer_steps ++
          iteration_steps "mug" "mug.obj" 7 9 ++ iteration_steps "box" "box.obj" 8 5 ++
          [Event.spin],
        Exit.returned 0) := by
  have h := main_output_loop_once_per_model run_with_two_models rfl rfl (by decide)
    (by decide) (by decide) (by decide)
  rw [h.1]
  decide

/-- C10 as stated fails: on the master, with the PCD file loaded, one model name,
one transform and one point cloud, the first iteration of the loop ends at
`model_bank.at(model_name)` with an exception when the model bank has no entry for
the name; no point cloud is added and `main` does not return 0. -/
theorem main_output_loop_unknown_model :
    run_with_unknown_model.is_master = true ∧
      run_with_unknown_model.loadPCDFile = 0 ∧
      run_with_unknown_model.object_transforms ≠ [] ∧
      run_with_unknown_model.model_names.length
        ≤ run_with_unknown_model.object_transforms.length ∧
      run_with_unknown_model.model_names.length
        ≤ run_with_unknown_model.object_point_clouds.length ∧
      main run_with_unknown_model
        = (recognition_steps true ++ viewer_steps ++
            [Event.cout "Object: mug\n", Event.cout_matrix 7],
          Exit.uncaught "std::out_of_range") ∧
      (main run_with_unknown_model).2 ≠ Exit.returned 0 := by
  decide

end OutputLoop

end Perception
